import Mathlib

/-!
Verification of the QM9 preprocessing notebook
`molecular-property-prediction/message-passing-networks/0_save-training-data.ipynb`.

We shallowly embed the two pieces of real logic, `make_type_lookup_tables`
and `convert_mol_to_dict`, together with the TFRecord-writing loop that
attaches the two label scalars to each stored record.

Modelling conventions:
* An RDKit molecule is a list of atomic numbers (in the fixed atom-index
  order exposed by `GetAtoms`) together with a list of bonds, each bond
  carrying its begin atom index, end atom index and bond-type category
  (RDKit `BondType` values are modelled as natural-number codes, which
  preserves their total order).
* `numpy.lexsort((col1, col0))` followed by fancy indexing is a stable
  sort of the rows by first column then second column; we model it with
  `List.insertionSort`, which is stable and sorts by the same relation.
* Python's `list.index` raises `ValueError` when the element is absent;
  the error branch of `convert_mol_to_dict` evaluates the undefined names
  `convert_nx_to_smiles` / `graph`, which in Python raises `NameError`
  before the `ValueError` is ever constructed.  Fallible evaluation is
  therefore modelled with `Except EncErr`.
-/

/-- A bond of an RDKit molecule: begin atom index (`GetBeginAtomIdx`),
end atom index (`GetEndAtomIdx`) and bond-type category (`GetBondType`). -/
structure Bond where
  src : Nat
  dst : Nat
  btype : Nat
deriving DecidableEq, Repr, Inhabited

/-- An RDKit molecule: per-atom atomic numbers in atom-index order
(`GetAtoms` / `GetAtomicNum`) and the bond list (`GetBonds`). -/
structure Mol where
  atoms : List Nat
  bonds : List Bond
deriving DecidableEq, Repr

/-- Errors `convert_mol_to_dict` can raise: a `ValueError` from
`list.index` on a value missing from the lookup table, or the `NameError`
raised in the unconnected-atom branch when Python evaluates the undefined
name `convert_nx_to_smiles`. -/
inductive EncErr where
  | lookupError : EncErr
  | nameError : String → EncErr
deriving DecidableEq, Repr

/-- The dict returned by `convert_mol_to_dict`, field for field. -/
structure Record where
  n_atom : Nat
  n_bond : Nat
  atom : List Nat
  bond : List Nat
  connectivity : List (Nat × Nat)
deriving DecidableEq, Repr

/-- Python `list.index`: index of the first occurrence, `none` when the
element does not occur (where Python raises `ValueError`). -/
def listIndex (l : List Nat) (x : Nat) : Option Nat :=
  match l with
  | [] => none
  | y :: ys => if y = x then some 0 else (listIndex ys x).map (· + 1)

/-- `list(map(table.index, values))`: every element is looked up in the
table, the first failing lookup raises. -/
def mapIndex (table : List Nat) : List Nat → Except EncErr (List Nat)
  | [] => .ok []
  | x :: xs =>
    match listIndex table x with
    | none => .error .lookupError
    | some i =>
      match mapIndex table xs with
      | .error e => .error e
      | .ok rest => .ok (i :: rest)

/-- Row order used by `np.lexsort((connectivity[:, 1], connectivity[:, 0]))`:
primary key the source column, secondary key the target column. -/
def rowLe (p q : Nat × Nat) : Prop :=
  p.1 < q.1 ∨ (p.1 = q.1 ∧ p.2 ≤ q.2)

instance : DecidableRel rowLe := fun p q => by
  unfold rowLe; infer_instance

instance : IsTotal (Nat × Nat) rowLe where
  total p q := by
    rcases Nat.lt_trichotomy p.1 q.1 with h | h | h
    · exact Or.inl (Or.inl h)
    · rcases Nat.le_total p.2 q.2 with h2 | h2
      · exact Or.inl (Or.inr ⟨h, h2⟩)
      · exact Or.inr (Or.inr ⟨h.symm, h2⟩)
    · exact Or.inr (Or.inl h)

instance : IsTrans (Nat × Nat) rowLe where
  trans p q r hpq hqr := by
    rcases hpq with h1 | ⟨h1, h1'⟩ <;> rcases hqr with h2 | ⟨h2, h2'⟩
    · exact Or.inl (h1.trans h2)
    · exact Or.inl (h2 ▸ h1)
    · exact Or.inl (h1 ▸ h2)
    · exact Or.inr ⟨h1.trans h2, h1'.trans h2'⟩

/-- `connectivity.max()` on a non-empty 2-D array of non-negative
integers: the largest entry in either column (as an integer, to compare
against `len(atom_type) - 1` the way Python does). -/
def connMax (rows : List (Nat × Nat)) : Int :=
  rows.foldl (fun acc p => max acc (max (p.1 : Int) (p.2 : Int))) 0

/-- The `connectivity` list built by the bond loop before sorting: each
bond appends its two directed rows `[a, b]` and `[b, a]`. -/
def directedRows (bonds : List Bond) : List (Nat × Nat) :=
  bonds.flatMap (fun b => [(b.src, b.dst), (b.dst, b.src)])

/-- The `edge_type` list built by the bond loop: each bond appends its
bond type twice, once per direction. -/
def dupTypes (bonds : List Bond) : List Nat :=
  bonds.flatMap (fun b => [b.btype, b.btype])

/-- `convert_mol_to_dict(mol, atom_types, bond_types)` from the notebook:
atom lookup, per-bond emission of both directed rows, stable lexicographic
sort of the connectivity rows only (the `bond` list is *not* permuted),
the `segment_sum` completeness check whose failure branch evaluates the
undefined name `convert_nx_to_smiles`, and finally the five-field dict. -/
def convert_mol_to_dict (mol : Mol) (atom_types : List Nat)
    (bond_types : List Nat) : Except EncErr Record :=
  let atom_type := mol.atoms
  match mapIndex atom_types atom_type with
  | .error e => .error e
  | .ok atom_type_id =>
    let connectivity0 := directedRows mol.bonds
    let edge_type := dupTypes mol.bonds
    match mapIndex bond_types edge_type with
    | .error e => .error e
    | .ok edge_type_id =>
      let connectivityE : Except EncErr (List (Nat × Nat)) :=
        if connectivity0.length > 0 then
          let sorted := connectivity0.insertionSort rowLe
          if connMax sorted ≠ (atom_type.length : Int) - 1 then
            .error (.nameError "convert_nx_to_smiles")
          else
            .ok sorted
        else
          .ok []
      match connectivityE with
      | .error e => .error e
      | .ok connectivity =>
        .ok { n_atom := atom_type.length
              n_bond := edge_type.length
              atom := atom_type_id
              bond := edge_type_id
              connectivity := connectivity }

/-- `make_type_lookup_tables(mols)`: the set of atomic numbers and the set
of bond types observed anywhere in the corpus, each returned as
`sorted(set)`, i.e. an ascending duplicate-free list. -/
def make_type_lookup_tables (mols : List Mol) : List Nat × List Nat :=
  let atom_types := (mols.flatMap Mol.atoms).dedup
  let bond_types := (mols.flatMap (fun m => m.bonds.map Bond.btype)).dedup
  (atom_types.insertionSort (· ≤ ·), bond_types.insertionSort (· ≤ ·))

/-- Helper: success of `mapIndex` forces equal lengths. -/
theorem mapIndex_ok_length {table : List Nat} :
    ∀ {l out : List Nat}, mapIndex table l = .ok out → out.length = l.length := by
  intro l
  induction l with
  | nil => intro out h; simp [mapIndex] at h; simp [← h]
  | cons x xs ih =>
    intro out h
    simp only [mapIndex] at h
    cases hx : listIndex table x with
    | none => rw [hx] at h; simp at h
    | some i =>
      rw [hx] at h
      cases hr : mapIndex table xs with
      | error e => rw [hr] at h; simp at h
      | ok rest =>
        rw [hr] at h
        simp at h
        subst h
        simp [ih hr]

theorem dupTypes_length (bonds : List Bond) :
    (dupTypes bonds).length = 2 * bonds.length := by
  induction bonds with
  | nil => rfl
  | cons b bs ih => simp [dupTypes, List.flatMap_cons] at ih ⊢; omega

theorem directedRows_length (bonds : List Bond) :
    (directedRows bonds).length = 2 * bonds.length := by
  induction bonds with
  | nil => rfl
  | cons b bs ih => simp [directedRows, List.flatMap_cons] at ih ⊢; omega

/-- Inversion principle: everything a successful run of
`convert_mol_to_dict` tells us about its pieces. -/
theorem convert_ok_elim {mol : Mol} {atom_types bond_types : List Nat} {r : Record}
    (h : convert_mol_to_dict mol atom_types bond_types = .ok r) :
    ∃ ids eids,
      mapIndex atom_types mol.atoms = .ok ids ∧
      mapIndex bond_types (dupTypes mol.bonds) = .ok eids ∧
      r.n_atom = mol.atoms.length ∧
      r.n_bond = (dupTypes mol.bonds).length ∧
      r.atom = ids ∧ r.bond = eids ∧
      ((mol.bonds = [] ∧ r.connectivity = []) ∨
       (mol.bonds ≠ [] ∧
        r.connectivity = (directedRows mol.bonds).insertionSort rowLe ∧
        connMax r.connectivity = (mol.atoms.length : Int) - 1)) := by
  unfold convert_mol_to_dict at h
  dsimp only at h
  cases hA : mapIndex atom_types mol.atoms with
  | error e => rw [hA] at h; simp at h
  | ok ids =>
    rw [hA] at h
    cases hB : mapIndex bond_types (dupTypes mol.bonds) with
    | error e => rw [hB] at h; simp at h
    | ok eids =>
      rw [hB] at h
      simp only at h
      by_cases hlen : (directedRows mol.bonds).length > 0
      · rw [if_pos hlen] at h
        by_cases hmax : connMax ((directedRows mol.bonds).insertionSort rowLe)
            ≠ ((mol.atoms.length : Int) - 1)
        · rw [if_pos hmax] at h
          simp at h
        · rw [if_neg hmax] at h
          simp at h
          push_neg at hmax
          refine ⟨ids, eids, rfl, rfl, ?_⟩
          subst h
          refine ⟨rfl, rfl, rfl, rfl, Or.inr ⟨?_, rfl, hmax⟩⟩
          intro hnil
          rw [hnil] at hlen
          simp [directedRows] at hlen
      · rw [if_neg hlen] at h
        simp at h
        refine ⟨ids, eids, rfl, rfl, ?_⟩
        subst h
        refine ⟨rfl, rfl, rfl, rfl, Or.inl ⟨?_, rfl⟩⟩
        rw [directedRows_length] at hlen
        exact List.length_eq_zero.mp (by omega)

/-- C4: for every successfully encoded molecule, `len(atom) == n_atom`,
`len(bond) == len(connectivity) == n_bond`, and `n_bond` is twice the
number of undirected bonds (hence even). -/
theorem C4_record_lengths (mol : Mol) (atom_types bond_types : List Nat)
    (r : Record) (h : convert_mol_to_dict mol atom_types bond_types = .ok r) :
    r.atom.length = r.n_atom ∧
    r.bond.length = r.n_bond ∧
    r.connectivity.length = r.n_bond ∧
    r.n_bond = 2 * mol.bonds.length := by
  obtain ⟨ids, eids, hA, hB, hna, hnb, hatom, hbond, hconn⟩ := convert_ok_elim h
  have hna' : r.n_atom = mol.atoms.length := hna
  have h2 : r.n_bond = 2 * mol.bonds.length := by
    rw [hnb, dupTypes_length]
  refine ⟨?_, ?_, ?_, h2⟩
  · rw [hatom, mapIndex_ok_length hA, hna]
  · rw [hbond, mapIndex_ok_length hB, hnb]
  · rcases hconn with ⟨hnil, hc⟩ | ⟨_, hc, _⟩
    · rw [hc, h2, hnil]
      simp
    · rw [hc, List.length_insertionSort, directedRows_length, h2]

/-- C4 witness at a concrete two-bond molecule. -/
theorem C4_record_lengths_witness :
    ∃ r, convert_mol_to_dict ⟨[6, 7, 8], [⟨1, 2, 2⟩, ⟨0, 1, 1⟩]⟩ [6, 7, 8] [1, 2] = .ok r ∧
      (r.atom.length = r.n_atom ∧ r.bond.length = r.n_bond ∧
       r.connectivity.length = r.n_bond ∧ r.n_bond = 2 * 2) :=
  ⟨⟨3, 4, [0, 1, 2], [1, 1, 0, 0], [(0, 1), (1, 0), (1, 2), (2, 1)]⟩, rfl,
    C4_record_lengths ⟨[6, 7, 8], [⟨1, 2, 2⟩, ⟨0, 1, 1⟩]⟩ [6, 7, 8] [1, 2] _ rfl⟩

/-- C5: the connectivity table of every successful record is sorted by
source index, then target index, across adjacent rows. -/
theorem C5_connectivity_sorted (mol : Mol) (atom_types bond_types : List Nat)
    (r : Record) (h : convert_mol_to_dict mol atom_types bond_types = .ok r) :
    r.connectivity.Chain' (fun p q => p.1 ≤ q.1 ∧ (p.1 = q.1 → p.2 ≤ q.2)) := by
  obtain ⟨ids, eids, hA, hB, hna, hnb, hatom, hbond, hconn⟩ := convert_ok_elim h
  rcases hconn with ⟨_, hc⟩ | ⟨_, hc, _⟩
  · rw [hc]; exact List.chain'_nil
  · rw [hc]
    have hs : ((directedRows mol.bonds).insertionSort rowLe).Sorted rowLe :=
      List.sorted_insertionSort rowLe _
    have := List.Pairwise.chain' hs
    refine this.imp ?_
    intro p q hpq
    rcases hpq with hlt | ⟨heq, hle⟩
    · exact ⟨Nat.le_of_lt hlt, fun he => absurd (he ▸ hlt) (lt_irrefl _)⟩
    · exact ⟨le_of_eq heq, fun _ => hle⟩

/-- C5 witness at a concrete molecule. -/
theorem C5_connectivity_sorted_witness :
    ([(0, 1), (1, 0), (1, 2), (2, 1)] : List (Nat × Nat)).Chain'
      (fun p q => p.1 ≤ q.1 ∧ (p.1 = q.1 → p.2 ≤ q.2)) := by
  have := C5_connectivity_sorted ⟨[6, 7, 8], [⟨1, 2, 2⟩, ⟨0, 1, 1⟩]⟩ [6, 7, 8] [1, 2]
    ⟨3, 4, [0, 1, 2], [1, 1, 0, 0], [(0, 1), (1, 0), (1, 2), (2, 1)]⟩ rfl
  exact this

/-- C8: encoding is deterministic: two successful runs on the same
molecule with the same vocabularies agree on all five record fields. -/
theorem C8_deterministic (mol : Mol) (atom_types bond_types : List Nat)
    (r1 r2 : Record)
    (h1 : convert_mol_to_dict mol atom_types bond_types = .ok r1)
    (h2 : convert_mol_to_dict mol atom_types bond_types = .ok r2) :
    r1.n_atom = r2.n_atom ∧ r1.n_bond = r2.n_bond ∧ r1.atom = r2.atom ∧
    r1.bond = r2.bond ∧ r1.connectivity = r2.connectivity := by
  have h : Except.ok (ε := EncErr) r1 = Except.ok r2 := h1.symm.trans h2
  have : r1 = r2 := by injection h
  subst this
  exact ⟨rfl, rfl, rfl, rfl, rfl⟩

/-- C8 witness at a concrete molecule. -/
theorem C8_deterministic_witness :
    let r : Record := ⟨3, 4, [0, 1, 2], [1, 1, 0, 0], [(0, 1), (1, 0), (1, 2), (2, 1)]⟩
    r.n_atom = r.n_atom ∧ r.n_bond = r.n_bond ∧ r.atom = r.atom ∧
    r.bond = r.bond ∧ r.connectivity = r.connectivity :=
  C8_deterministic ⟨[6, 7, 8], [⟨1, 2, 2⟩, ⟨0, 1, 1⟩]⟩ [6, 7, 8] [1, 2] _ _ rfl rfl

/-- Helper: `listIndex` never returns `none` on a member of the table. -/
theorem listIndex_isSome_of_mem {l : List Nat} {x : Nat} (hx : x ∈ l) :
    ∃ i, listIndex l x = some i := by
  induction l with
  | nil => cases hx
  | cons y ys ih =>
    by_cases hy : y = x
    · exact ⟨0, by simp [listIndex, hy]⟩
    · rcases List.mem_cons.mp hx with h | h
      · exact absurd h.symm hy
      · obtain ⟨i, hi⟩ := ih h
        exact ⟨i + 1, by simp [listIndex, hy, hi]⟩

/-- Helper: `mapIndex` succeeds whenever every element is in the table. -/
theorem mapIndex_ok_of_forall_mem {table : List Nat} :
    ∀ {l : List Nat}, (∀ x ∈ l, x ∈ table) → ∃ out, mapIndex table l = .ok out := by
  intro l
  induction l with
  | nil => intro _; exact ⟨[], rfl⟩
  | cons x xs ih =>
    intro hall
    obtain ⟨i, hi⟩ := listIndex_isSome_of_mem (hall x (List.mem_cons_self x xs))
    obtain ⟨rest, hrest⟩ := ih (fun y hy => hall y (List.mem_cons_of_mem x hy))
    exact ⟨i :: rest, by simp [mapIndex, hi, hrest]⟩

/-- C9: a molecule with zero bonds encodes without any error to a record
with `n_bond = 0` and an empty connectivity table, the maximum-index check
being skipped. -/
theorem C9_zero_bonds (mol : Mol) (atom_types bond_types : List Nat)
    (hnb : mol.bonds = [])
    (hcov : ∀ a ∈ mol.atoms, a ∈ atom_types) :
    ∃ r, convert_mol_to_dict mol atom_types bond_types = .ok r ∧
      r.n_bond = 0 ∧ r.connectivity = [] := by
  obtain ⟨ids, hids⟩ := mapIndex_ok_of_forall_mem hcov
  refine ⟨⟨mol.atoms.length, 0, ids, [], []⟩, ?_, rfl, rfl⟩
  unfold convert_mol_to_dict
  dsimp only
  rw [hids, hnb]
  rfl

/-- C9 witness: a single isolated atom. -/
theorem C9_zero_bonds_witness :
    ∃ r, convert_mol_to_dict ⟨[6], []⟩ [6] [] = .ok r ∧
      r.n_bond = 0 ∧ r.connectivity = [] :=
  C9_zero_bonds ⟨[6], []⟩ [6] [] rfl (by decide)

/-- C6: the vocabulary builder returns, for any corpus, the distinct
atomic numbers and distinct bond categories as ascending, duplicate-free
lists; the empty corpus yields two empty lists (and, being a total Lean
function, it raises no error). -/
theorem C6_make_type_lookup_tables (mols : List Mol) :
    (make_type_lookup_tables mols).1.Sorted (· ≤ ·) ∧
    (make_type_lookup_tables mols).1.Nodup ∧
    (∀ x, x ∈ (make_type_lookup_tables mols).1 ↔ ∃ m ∈ mols, x ∈ m.atoms) ∧
    (make_type_lookup_tables mols).2.Sorted (· ≤ ·) ∧
    (make_type_lookup_tables mols).2.Nodup ∧
    (∀ x, x ∈ (make_type_lookup_tables mols).2 ↔
      ∃ m ∈ mols, ∃ b ∈ m.bonds, b.btype = x) ∧
    make_type_lookup_tables [] = ([], []) := by
  unfold make_type_lookup_tables
  dsimp only
  refine ⟨List.sorted_insertionSort _ _, ?_, ?_, List.sorted_insertionSort _ _, ?_, ?_, rfl⟩
  · exact ((List.perm_insertionSort _ _).nodup_iff).mpr (List.nodup_dedup _)
  · intro x
    rw [List.mem_insertionSort, List.mem_dedup, List.mem_flatMap]
  · exact ((List.perm_insertionSort _ _).nodup_iff).mpr (List.nodup_dedup _)
  · intro x
    rw [List.mem_insertionSort, List.mem_dedup, List.mem_flatMap]
    constructor
    · rintro ⟨m, hm, hx⟩
      obtain ⟨b, hb, hbx⟩ := List.mem_map.mp hx
      exact ⟨m, hm, b, hb, hbx⟩
    · rintro ⟨m, hm, b, hb, hbx⟩
      exact ⟨m, hm, List.mem_map.mpr ⟨b, hb, hbx⟩⟩

/-- Helper: a successful `listIndex` points at the looked-up value. -/
theorem listIndex_getD {l : List Nat} {x : Nat} :
    ∀ {i : Nat}, listIndex l x = some i → l.getD i 0 = x := by
  induction l with
  | nil => intro i h; simp [listIndex] at h
  | cons y ys ih =>
    intro i h
    simp only [listIndex] at h
    by_cases hy : y = x
    · rw [if_pos hy] at h
      cases h
      simpa using hy
    · rw [if_neg hy] at h
      cases hr : listIndex ys x with
      | none => rw [hr] at h; simp at h
      | some j =>
        rw [hr] at h
        simp at h
        subst h
        simpa using ih hr

/-- Helper: a successful `mapIndex` looks up each position in turn. -/
theorem mapIndex_ok_getD {table : List Nat} :
    ∀ {l out : List Nat}, mapIndex table l = .ok out →
      ∀ i, i < l.length → listIndex table (l.getD i 0) = some (out.getD i 0) := by
  intro l
  induction l with
  | nil => intro out _ i hi; simp at hi
  | cons x xs ih =>
    intro out h i hi
    simp only [mapIndex] at h
    cases hx : listIndex table x with
    | none => rw [hx] at h; simp at h
    | some j =>
      rw [hx] at h
      cases hr : mapIndex table xs with
      | error e => rw [hr] at h; simp at h
      | ok rest =>
        rw [hr] at h
        simp at h
        subst h
        cases i with
        | zero => simpa using hx
        | succ i' =>
          simp only [List.getD_cons_succ]
          exact ih hr i' (by simpa using hi)

/-- Helper: positions `2*k` and `2*k+1` of `edge_type` hold the type of
bond `k`. -/
theorem dupTypes_getD (bonds : List Bond) :
    ∀ k, k < bonds.length →
      (dupTypes bonds).getD (2 * k) 0 = (bonds.getD k default).btype ∧
      (dupTypes bonds).getD (2 * k + 1) 0 = (bonds.getD k default).btype := by
  induction bonds with
  | nil => intro k hk; simp at hk
  | cons b bs ih =>
    intro k hk
    cases k with
    | zero => simp [dupTypes, List.flatMap_cons]
    | succ k' =>
      have e1 : 2 * (k' + 1) = 2 * k' + 1 + 1 := by ring
      have hd : dupTypes (b :: bs) = b.btype :: b.btype :: dupTypes bs := by
        simp [dupTypes, List.flatMap_cons]
      rw [hd, e1]
      simp only [List.getD_cons_succ]
      exact ih k' (by simpa using hk)

/-- C7: with vocabularies built from a corpus containing the molecule,
indexing `atom_types` at each entry of `record.atom` recovers that atom's
atomic number, and indexing `bond_types` at the entries `2k` and `2k+1`
of `record.bond` recovers the category of the bond they were emitted for. -/
theorem C7_vocab_round_trip (mols : List Mol) (mol : Mol) (r : Record)
    (_hmem : mol ∈ mols)
    (hok : convert_mol_to_dict mol (make_type_lookup_tables mols).1
      (make_type_lookup_tables mols).2 = .ok r) :
    (∀ i, i < r.n_atom →
      (make_type_lookup_tables mols).1.getD (r.atom.getD i 0) 0 = mol.atoms.getD i 0) ∧
    (∀ k, k < mol.bonds.length →
      (make_type_lookup_tables mols).2.getD (r.bond.getD (2 * k) 0) 0 =
        (mol.bonds.getD k default).btype ∧
      (make_type_lookup_tables mols).2.getD (r.bond.getD (2 * k + 1) 0) 0 =
        (mol.bonds.getD k default).btype) := by
  obtain ⟨ids, eids, hA, hB, hna, hnb, hatom, hbond, _⟩ := convert_ok_elim hok
  constructor
  · intro i hi
    rw [hatom]
    have hi' : i < mol.atoms.length := by rw [← hna]; exact hi
    exact listIndex_getD (mapIndex_ok_getD hA i hi')
  · intro k hk
    have hlen := dupTypes_length mol.bonds
    have h2k : 2 * k < (dupTypes mol.bonds).length := by omega
    have h2k1 : 2 * k + 1 < (dupTypes mol.bonds).length := by omega
    obtain ⟨hL, hR⟩ := dupTypes_getD mol.bonds k hk
    rw [hbond]
    constructor
    · rw [← hL]
      exact listIndex_getD (mapIndex_ok_getD hB (2 * k) h2k)
    · rw [← hR]
      exact listIndex_getD (mapIndex_ok_getD hB (2 * k + 1) h2k1)

/-- C7 witness at a two-bond molecule in a one-molecule corpus. -/
theorem C7_vocab_round_trip_witness :
    let mols : List Mol := [⟨[6, 7, 8], [⟨1, 2, 2⟩, ⟨0, 1, 1⟩]⟩]
    let mol : Mol := ⟨[6, 7, 8], [⟨1, 2, 2⟩, ⟨0, 1, 1⟩]⟩
    let r : Record := ⟨3, 4, [0, 1, 2], [1, 1, 0, 0], [(0, 1), (1, 0), (1, 2), (2, 1)]⟩
    (∀ i, i < r.n_atom →
      (make_type_lookup_tables mols).1.getD (r.atom.getD i 0) 0 = mol.atoms.getD i 0) ∧
    (∀ k, k < mol.bonds.length →
      (make_type_lookup_tables mols).2.getD (r.bond.getD (2 * k) 0) 0 =
        (mol.bonds.getD k default).btype ∧
      (make_type_lookup_tables mols).2.getD (r.bond.getD (2 * k + 1) 0) 0 =
        (mol.bonds.getD k default).btype) :=
  C7_vocab_round_trip [⟨[6, 7, 8], [⟨1, 2, 2⟩, ⟨0, 1, 1⟩]⟩]
    ⟨[6, 7, 8], [⟨1, 2, 2⟩, ⟨0, 1, 1⟩]⟩
    ⟨3, 4, [0, 1, 2], [1, 1, 0, 0], [(0, 1), (1, 0), (1, 2), (2, 1)]⟩
    (List.mem_singleton.mpr rfl) rfl

/-- C1: evaluating the encoder on a two-bond molecule whose bonds have
distinct categories (bond 0 = double between atoms 1 and 2, bond 1 =
single between atoms 0 and 1, vocabularies `[6,7,8]` and `[1,2]`).
The code sorts `connectivity` but never permutes `bond`: the sorted row 0
is `(0, 1)`, the directed row of the single bond whose category `1` has
vocabulary index 0, yet `bond` still starts with `1`, the double bond's
index.  The claimed per-row (connectivity, bond) correspondence fails. -/
theorem C1_bond_not_reordered :
    convert_mol_to_dict ⟨[6, 7, 8], [⟨1, 2, 2⟩, ⟨0, 1, 1⟩]⟩ [6, 7, 8] [1, 2] =
      .ok ⟨3, 4, [0, 1, 2], [1, 1, 0, 0], [(0, 1), (1, 0), (1, 2), (2, 1)]⟩ ∧
    listIndex [1, 2] (Bond.btype ⟨0, 1, 1⟩) = some 0 ∧
    ([1, 1, 0, 0] : List Nat).getD 0 0 ≠ 0 :=
  ⟨rfl, rfl, by decide⟩

/-- C2: when the maximum-index check fails (four nitrogen atoms, bonds
only among atoms 0, 1, 2, so the maximum connectivity index 2 differs
from `n_atom - 1 = 3`), the code raises the `NameError` coming from the
undefined name `convert_nx_to_smiles`, not a structural-validity error
naming the molecule; when the maximum equals `n_atom - 1`, it succeeds. -/
theorem C2_check_failure_is_nameError :
    convert_mol_to_dict ⟨[7, 7, 7, 7], [⟨0, 1, 1⟩, ⟨1, 2, 1⟩]⟩ [7] [1] =
      .error (.nameError "convert_nx_to_smiles") ∧
    convert_mol_to_dict ⟨[7, 7], [⟨0, 1, 1⟩]⟩ [7] [1] =
      .ok ⟨2, 2, [0, 0], [0, 0], [(0, 1), (1, 0)]⟩ :=
  ⟨rfl, rfl⟩

/-- C3: a multi-atom molecule with one bond and a disconnected fragment
(atom 2, an oxygen with no bonds) trips the maximum-index check, and the
error actually raised is the `NameError` from the undefined name
`convert_nx_to_smiles`, not the structural-validity `ValueError` naming
the molecule. -/
theorem C3_disconnected_fragment_error :
    convert_mol_to_dict ⟨[6, 1, 8], [⟨0, 1, 1⟩]⟩ [1, 6, 8] [1] =
      .error (.nameError "convert_nx_to_smiles") :=
  rfl

/-- Values stored in a record dict: the encoder's integer scalar and
array fields, plus the label scalars attached by the writer loop (the QM9
property values, modelled as integers since only their placement in the
dict matters here). -/
inductive Val where
  | nat : Nat → Val
  | lst : List Nat → Val
  | rows : List (Nat × Nat) → Val
  | scalar : Int → Val
deriving DecidableEq, Repr

/-- A Python dict in insertion order. -/
abbrev Dict := List (String × Val)

/-- Python `d[k] = v` on an insertion-ordered dict: replace the value in
place when the key exists, append a new pair otherwise. -/
def dictSet (d : Dict) (k : String) (v : Val) : Dict :=
  if d.any (fun p => p.1 == k) then d.map (fun p => if p.1 == k then (k, v) else p)
  else d ++ [(k, v)]

/-- Python `d[k]` (as an option). -/
def dictGet (d : Dict) (k : String) : Option Val :=
  (d.find? (fun p => p.1 == k)).map Prod.snd

/-- Python `list(d)`: the keys in insertion order. -/
def dictKeys (d : Dict) : List String := d.map Prod.fst

/-- The dict literal returned by `convert_mol_to_dict`, with the source's
key order. -/
def encDict (r : Record) : Dict :=
  [("n_atom", .nat r.n_atom), ("n_bond", .nat r.n_bond), ("atom", .lst r.atom),
   ("bond", .lst r.bond), ("connectivity", .rows r.connectivity)]

/-- A row of the pandas dataset as the writer loop sees it: the reference
(heap address) of the dict object stored in the `dict` column, and the
two label scalars of that row. -/
structure Entry where
  dictAddr : Nat
  u0_atom : Int
  bandgap : Int

/-- One iteration of the writer loop: `record = entry['dict']` takes a
reference to the stored dict (no copy), `record[o] = entry[o]` mutates
the referenced object in place for both labels, and the mutated dict is
what `make_tfrecord` serializes. -/
def writeEntry (heap : Nat → Dict) (e : Entry) : (Nat → Dict) × Dict :=
  let record := heap e.dictAddr
  let record := dictSet record "u0_atom" (.scalar e.u0_atom)
  let record := dictSet record "bandgap" (.scalar e.bandgap)
  (Function.update heap e.dictAddr record, record)

/-- The writer loop over one partition: threads the heap of dict objects
through the iterations and collects the written dicts in order. -/
def writeLoop : List Entry → (Nat → Dict) → (Nat → Dict) × List Dict
  | [], heap => (heap, [])
  | e :: es, heap =>
    let he := writeEntry heap e
    let rest := writeLoop es he.1
    (rest.1, he.2 :: rest.2)

/-- Helper: adding the two fresh label keys to an encoder dict appends
them, leaving the five encoder pairs untouched. -/
theorem dictSet_labels (r : Record) (u bg : Int) :
    dictSet (dictSet (encDict r) "u0_atom" (.scalar u)) "bandgap" (.scalar bg) =
      encDict r ++ [("u0_atom", .scalar u), ("bandgap", .scalar bg)] := rfl

/-- Helper: the loop never touches a heap address carried by none of the
remaining entries. -/
theorem writeLoop_preserve :
    ∀ (es : List Entry) (heap : Nat → Dict) (a : Nat),
      a ∉ es.map Entry.dictAddr → (writeLoop es heap).1 a = heap a := by
  intro es
  induction es with
  | nil => intro heap a _; rfl
  | cons e0 es ih =>
    intro heap a ha
    simp only [List.map_cons, List.mem_cons, not_or] at ha
    show (writeLoop es (writeEntry heap e0).1).1 a = heap a
    rw [ih _ a ha.2]
    exact Function.update_noteq ha.1 _ heap

/-- C10: the writer loop mutates each stored dict in place: after the
loop, the dict object a dataset row references holds the five encoder
fields unchanged followed by the two label fields, seven keys in all. -/
theorem C10_labels_added_in_place (entries : List Entry) (heap : Nat → Dict)
    (e : Entry) (r : Record)
    (hnd : (entries.map Entry.dictAddr).Nodup)
    (he : e ∈ entries)
    (hinit : heap e.dictAddr = encDict r) :
    (writeLoop entries heap).1 e.dictAddr =
      encDict r ++ [("u0_atom", .scalar e.u0_atom), ("bandgap", .scalar e.bandgap)] ∧
    dictKeys ((writeLoop entries heap).1 e.dictAddr) =
      ["n_atom", "n_bond", "atom", "bond", "connectivity", "u0_atom", "bandgap"] ∧
    dictGet ((writeLoop entries heap).1 e.dictAddr) "n_atom" = dictGet (encDict r) "n_atom" ∧
    dictGet ((writeLoop entries heap).1 e.dictAddr) "n_bond" = dictGet (encDict r) "n_bond" ∧
    dictGet ((writeLoop entries heap).1 e.dictAddr) "atom" = dictGet (encDict r) "atom" ∧
    dictGet ((writeLoop entries heap).1 e.dictAddr) "bond" = dictGet (encDict r) "bond" ∧
    dictGet ((writeLoop entries heap).1 e.dictAddr) "connectivity" =
      dictGet (encDict r) "connectivity" := by
  have hfin : (writeLoop entries heap).1 e.dictAddr =
      encDict r ++ [("u0_atom", .scalar e.u0_atom), ("bandgap", .scalar e.bandgap)] := by
    induction entries generalizing heap with
    | nil => cases he
    | cons e0 es ih =>
      rw [List.map_cons, List.nodup_cons] at hnd
      obtain ⟨h0, hnd'⟩ := hnd
      rcases List.mem_cons.mp he with rfl | he'
      · show (writeLoop es (writeEntry heap e).1).1 e.dictAddr = _
        rw [writeLoop_preserve es _ e.dictAddr h0]
        show Function.update heap e.dictAddr _ e.dictAddr = _
        rw [Function.update_same, hinit, dictSet_labels]
      · have hne : e.dictAddr ≠ e0.dictAddr := by
          intro hcontra
          exact h0 (hcontra ▸ List.mem_map_of_mem Entry.dictAddr he')
        show (writeLoop es (writeEntry heap e0).1).1 e.dictAddr = _
        have hinit' : (writeEntry heap e0).1 e.dictAddr = encDict r := by
          show Function.update heap e0.dictAddr _ e.dictAddr = _
          rw [Function.update_noteq hne, hinit]
        exact ih _ hnd' he' hinit'
  rw [hfin]
  exact ⟨rfl, rfl, rfl, rfl, rfl, rfl, rfl⟩

/-- C10 witness: one dataset row referencing a concrete encoder dict. -/
theorem C10_labels_added_in_place_witness :
    let e : Entry := ⟨0, 5, 7⟩
    let r : Record := ⟨1, 0, [0], [], []⟩
    let heap : Nat → Dict := fun _ => encDict r
    (writeLoop [e] heap).1 e.dictAddr =
      encDict r ++ [("u0_atom", .scalar e.u0_atom), ("bandgap", .scalar e.bandgap)] ∧
    dictKeys ((writeLoop [e] heap).1 e.dictAddr) =
      ["n_atom", "n_bond", "atom", "bond", "connectivity", "u0_atom", "bandgap"] ∧
    dictGet ((writeLoop [e] heap).1 e.dictAddr) "n_atom" = dictGet (encDict r) "n_atom" ∧
    dictGet ((writeLoop [e] heap).1 e.dictAddr) "n_bond" = dictGet (encDict r) "n_bond" ∧
    dictGet ((writeLoop [e] heap).1 e.dictAddr) "atom" = dictGet (encDict r) "atom" ∧
    dictGet ((writeLoop [e] heap).1 e.dictAddr) "bond" = dictGet (encDict r) "bond" ∧
    dictGet ((writeLoop [e] heap).1 e.dictAddr) "connectivity" =
      dictGet (encDict r) "connectivity" :=
  C10_labels_added_in_place [⟨0, 5, 7⟩] (fun _ => encDict ⟨1, 0, [0], [], []⟩)
    ⟨0, 5, 7⟩ ⟨1, 0, [0], [], []⟩ (by simp) (List.mem_singleton.mpr rfl) rfl
